import Mathlib

/-!
Verification of the PDF form-field editing tool (`Edit_PDF_fields.py`).

The development shallowly embeds the core of the program: the PDF object
model manipulated through pikepdf (dictionaries, arrays, indirect
references and an object table), the field locator `load_widget`, the
mutation change-functions, the change applicator `apply_change` with its
undo stack, `action_undo`, and the field reporter `refresh_fields`.

Modelling conventions, matching how the source uses the library:
* An indirect reference is a value carrying an (object number, generation)
  pair; `pdf.get_object` looks the object number up in the object table.
  Following the source's own `is_ref` helper, only references expose an
  object id (`objid`/`objgen`); direct values do not.
* `pdf.Root` is the root dictionary; `pdf.pages` is the ordered list of
  object numbers of the page objects (PyMuPDF's `page.xref` and pikepdf's
  page objects coincide on these numbers).
* Buffers (serialized PDF byte strings) are an abstract type parameter of
  the Document Store; parsing and serialization are performed by the
  external library (out of scope per the specification) and are passed to
  `apply_change` as fallible functions.  Exceptions are modelled by
  `Except String`.
* Log lines and dialog messages are returned as a list of strings; the
  exact message text is abbreviated from the GUI's localized strings.
-/

set_option autoImplicit false

namespace EditPdf

/-- A PDF value as manipulated by the program through pikepdf:
null, booleans, numbers (pikepdf reals/integers, read back from Python
floats), strings, names, arrays, dictionaries, and indirect references
carrying an (object number, generation) identity. -/
inductive PdfVal : Type where
  | null : PdfVal
  | bool (b : Bool) : PdfVal
  | num (q : ℚ) : PdfVal
  | str (s : String) : PdfVal
  | name (s : String) : PdfVal
  | array (xs : List PdfVal) : PdfVal
  | dict (entries : List (String × PdfVal)) : PdfVal
  | ref (objnum gen : Nat) : PdfVal

/-- A PDF dictionary body: an association list with unique keys,
mirroring a pikepdf `Dictionary`. -/
abbrev PdfDict := List (String × PdfVal)

/-- Key lookup in a dictionary (`d.get(key)` / `d[key]`). -/
def dictGet : PdfDict → String → Option PdfVal
  | [], _ => none
  | (k, v) :: rest, key => if k = key then some v else dictGet rest key

/-- Key membership test (`key in d`). -/
def dictContains (d : PdfDict) (key : String) : Bool :=
  (dictGet d key).isSome

/-- Key assignment (`d[key] = v`): replaces the value of an existing key,
otherwise appends the new entry. -/
def dictSet : PdfDict → String → PdfVal → PdfDict
  | [], key, v => [(key, v)]
  | (k, w) :: rest, key, v =>
    if k = key then (key, v) :: rest else (k, w) :: dictSet rest key v

/-- Key deletion (`del d[key]`). -/
def dictDel : PdfDict → String → PdfDict
  | [], _ => []
  | (k, w) :: rest, key =>
    if k = key then dictDel rest key else (k, w) :: dictDel rest key

/-- The object table of a parsed document plus the page list and the root
dictionary.  `table` maps object numbers to stored objects; `pages` lists
the object numbers of the page objects in document order. -/
structure Pdf where
  table : List (Nat × PdfVal)
  pages : List Nat
  root : PdfDict

/-- Lookup in an object table (first entry with the given number). -/
def tableGet : List (Nat × PdfVal) → Nat → Option PdfVal
  | [], _ => none
  | (k, v) :: rest, n => if k = n then some v else tableGet rest n

/-- Replace the stored object with a given number (no-op if absent). -/
def tableSetL : List (Nat × PdfVal) → Nat → PdfVal → List (Nat × PdfVal)
  | [], _, _ => []
  | (k, w) :: rest, n, v =>
    if k = n then (k, v) :: rest else (k, w) :: tableSetL rest n v

/-- `pdf.get_object(objid)`: fetch the object stored under an object
number; a missing entry reads as the null object. -/
def Pdf.get_object (pdf : Pdf) (n : Nat) : PdfVal :=
  (tableGet pdf.table n).getD PdfVal.null

/-- Store a new value for object number `n` in the document. -/
def Pdf.setObject (pdf : Pdf) (n : Nat) (v : PdfVal) : Pdf :=
  { pdf with table := tableSetL pdf.table n v }

/-- The `resolve` helper of `load_widget`: an indirect reference is
dereferenced through `get_object`; any other value is returned as is. -/
def Pdf.resolve (pdf : Pdf) (v : PdfVal) : PdfVal :=
  match v with
  | PdfVal.ref n _ => pdf.get_object n
  | v => v

/-- View a value as a dictionary body, if it is one. -/
def asDict : PdfVal → Option PdfDict
  | PdfVal.dict d => some d
  | _ => none

/-- View a value as an array; non-arrays read as the empty list. -/
def asArray : PdfVal → List PdfVal
  | PdfVal.array xs => xs
  | _ => []

/-- `in`-test on a (possibly non-dictionary) value. -/
def valContains (v : PdfVal) (key : String) : Bool :=
  match asDict v with
  | some d => dictContains d key
  | none => false

/-- `.get(key)` on a (possibly non-dictionary) value. -/
def valGet (v : PdfVal) (key : String) : Option PdfVal :=
  match asDict v with
  | some d => dictGet d key
  | none => none

/-- The object identity exposed by a value: references carry their object
number, direct values have none (the duck-typed `getattr(x, "objid",
None)` of the source). -/
def objidOf : PdfVal → Option Nat
  | PdfVal.ref n _ => some n
  | _ => none

/-- The (object number, generation) pair of a reference (`x.objgen`);
absent on direct values, where reading it raises. -/
def objgenOf : PdfVal → Option (Nat × Nat)
  | PdfVal.ref n g => some (n, g)
  | _ => none

/-- Comparison of a field's name attribute with the target name:
`obj.get("/T") == field_name` where `/T` holds a PDF string. -/
def tMatches (v : Option PdfVal) (target : String) : Bool :=
  match v with
  | some (PdfVal.str s) => s = target
  | _ => false

/-- The raw `/AcroForm` value of the root dictionary (null if absent). -/
def acroFormVal (pdf : Pdf) : PdfVal :=
  (dictGet pdf.root "/AcroForm").getD PdfVal.null

/-- `pdf.Root.AcroForm`: attribute access auto-resolves references. -/
def formObj (pdf : Pdf) : PdfVal :=
  pdf.resolve (acroFormVal pdf)

/-- The raw `/Fields` value of the form dictionary (null if absent). -/
def fieldsVal (pdf : Pdf) : PdfVal :=
  (valGet (formObj pdf) "/Fields").getD PdfVal.null

/-- `form.Fields` as iterated by the source: the fields array, with the
reference to an indirectly stored array auto-resolved. -/
def getFields (pdf : Pdf) : List PdfVal :=
  asArray (pdf.resolve (fieldsVal pdf))

/-- The `/Kids` list of a resolved field object, as iterated by
`load_widget` (references to indirectly stored arrays auto-resolve). -/
def kidsList (pdf : Pdf) (fieldObj : PdfVal) : List PdfVal :=
  asArray (pdf.resolve ((valGet fieldObj "/Kids").getD PdfVal.null))

/-- Inner loop of `load_widget` over the `/Kids` of one field: return the
first resolved child whose `/T` equals the target. -/
def kidLoop (pdf : Pdf) (target : String) : List PdfVal → Option PdfVal
  | [] => none
  | kid :: rest =>
    let kidObj := pdf.resolve kid
    if tMatches (valGet kidObj "/T") target then some kidObj
    else kidLoop pdf target rest

/-- Outer loop of `load_widget` over the top-level fields: for each
resolved entry, first search its `/Kids` (when present) for a child with
the target name, then fall back to the entry itself when its own `/T`
matches, else continue. -/
def fieldLoop (pdf : Pdf) (target : String) : List PdfVal → Option PdfVal
  | [] => none
  | field :: rest =>
    let fieldObj := pdf.resolve field
    match
      (if valContains fieldObj "/Kids" then
        kidLoop pdf target (kidsList pdf fieldObj)
      else none) with
    | some k => some k
    | none =>
      if tMatches (valGet fieldObj "/T") target then some fieldObj
      else fieldLoop pdf target rest

/-- `load_widget(pdf, field_name)`: locate a form field by name in the
interactive form's field tree, returning the resolved field object, or
`none` when there is no form dictionary, no field list, or no match. -/
def load_widget (pdf : Pdf) (field_name : String) : Option PdfVal :=
  if dictContains pdf.root "/AcroForm" = false then none
  else if valContains (formObj pdf) "/Fields" = false then none
  else fieldLoop pdf field_name (getFields pdf)

/-!
## Widget locations

In Python the object returned by `load_widget` aliases a node of the
document graph, so assigning to it mutates the document.  In the pure
embedding, the mutation operations act through an explicit description of
where the located widget lives: as an indirect object of the table, or as
a direct dictionary embedded at an index of the fields array, of an
inline `/Kids` array, or of an indirectly stored `/Kids` array.
-/

/-- Where the located widget dictionary lives inside the document. -/
inductive WLoc : Type where
  | obj (n : Nat) : WLoc
  | top (i : Nat) : WLoc
  | kidOfTop (i j : Nat) : WLoc
  | kidOfObj (n j : Nat) : WLoc
  | kidArr (m j : Nat) : WLoc
deriving DecidableEq, Repr

/-- Location of the entry itself: a reference locates the table object,
a direct value locates the given index of the fields array. -/
def selfLoc (i : Nat) : PdfVal → WLoc
  | PdfVal.ref n _ => WLoc.obj n
  | _ => WLoc.top i

/-- Location of the `j`-th kid of a field: a reference kid locates the
table object; a direct kid lives in the `/Kids` array, whose own home is
determined by the field entry and the raw `/Kids` value. -/
def kidLoc (i : Nat) (fieldEntry kidsVal : PdfVal) (j : Nat) : PdfVal → WLoc
  | PdfVal.ref n _ => WLoc.obj n
  | _ =>
    match kidsVal with
    | PdfVal.ref m _ => WLoc.kidArr m j
    | _ =>
      match fieldEntry with
      | PdfVal.ref n _ => WLoc.kidOfObj n j
      | _ => WLoc.kidOfTop i j

/-- Kid loop of the locator, mirroring `kidLoop` but returning where the
matching kid lives. -/
def kidLocLoop (pdf : Pdf) (target : String) (i : Nat)
    (fieldEntry kidsVal : PdfVal) : Nat → List PdfVal → Option WLoc
  | _, [] => none
  | j, kid :: rest =>
    let kidObj := pdf.resolve kid
    if tMatches (valGet kidObj "/T") target then
      some (kidLoc i fieldEntry kidsVal j kid)
    else kidLocLoop pdf target i fieldEntry kidsVal (j + 1) rest

/-- Field loop of the locator, mirroring `fieldLoop` but returning where
the matching widget lives. -/
def fieldLocLoop (pdf : Pdf) (target : String) : Nat → List PdfVal → Option WLoc
  | _, [] => none
  | i, field :: rest =>
    let fieldObj := pdf.resolve field
    match
      (if valContains fieldObj "/Kids" then
        kidLocLoop pdf target i field ((valGet fieldObj "/Kids").getD PdfVal.null)
          0 (kidsList pdf fieldObj)
      else none) with
    | some l => some l
    | none =>
      if tMatches (valGet fieldObj "/T") target then some (selfLoc i field)
      else fieldLocLoop pdf target (i + 1) rest

/-- The locator counterpart of `load_widget`: same traversal, but the
result names the location of the found widget instead of its value. -/
def locateW (pdf : Pdf) (field_name : String) : Option WLoc :=
  if dictContains pdf.root "/AcroForm" = false then none
  else if valContains (formObj pdf) "/Fields" = false then none
  else fieldLocLoop pdf field_name 0 (getFields pdf)

/-- The widget value designated by a location (the object `load_widget`
returned in Python). -/
def locVal (pdf : Pdf) : WLoc → PdfVal
  | WLoc.obj n => pdf.get_object n
  | WLoc.top i => (getFields pdf).getD i PdfVal.null
  | WLoc.kidOfTop i j =>
    (kidsList pdf ((getFields pdf).getD i PdfVal.null)).getD j PdfVal.null
  | WLoc.kidOfObj n j =>
    (kidsList pdf (pdf.get_object n)).getD j PdfVal.null
  | WLoc.kidArr m j => (asArray (pdf.get_object m)).getD j PdfVal.null

/-- The widget dictionary at a location (empty when the slot does not
hold a dictionary). -/
def getW (pdf : Pdf) (loc : WLoc) : PdfDict :=
  (asDict (locVal pdf loc)).getD []

/-- The object identity of the located widget, as the source reads it via
`getattr(widget, "objid", None)`: present only for indirect widgets. -/
def wObjId : WLoc → Option Nat
  | WLoc.obj n => some n
  | _ => none

/-- Write back the fields array to wherever it lives: inline under an
inline or indirect form dictionary, or as an indirectly stored array. -/
def setFields (pdf : Pdf) (xs : List PdfVal) : Pdf :=
  match dictGet pdf.root "/AcroForm" with
  | some (PdfVal.dict form) =>
    (match dictGet form "/Fields" with
     | some (PdfVal.array _) =>
       { pdf with
         root := dictSet pdf.root "/AcroForm"
           (PdfVal.dict (dictSet form "/Fields" (PdfVal.array xs))) }
     | some (PdfVal.ref m _) => pdf.setObject m (PdfVal.array xs)
     | _ => pdf)
  | some (PdfVal.ref n _) =>
    (match pdf.get_object n with
     | PdfVal.dict form =>
       (match dictGet form "/Fields" with
        | some (PdfVal.array _) =>
          pdf.setObject n (PdfVal.dict (dictSet form "/Fields" (PdfVal.array xs)))
        | some (PdfVal.ref m _) => pdf.setObject m (PdfVal.array xs)
        | _ => pdf)
     | _ => pdf)
  | _ => pdf

/-- Overwrite the widget dictionary at a location. -/
def setW (pdf : Pdf) (loc : WLoc) (d : PdfDict) : Pdf :=
  match loc with
  | WLoc.obj n => pdf.setObject n (PdfVal.dict d)
  | WLoc.top i => setFields pdf ((getFields pdf).set i (PdfVal.dict d))
  | WLoc.kidOfTop i j =>
    (match (getFields pdf).getD i PdfVal.null with
     | PdfVal.dict fd =>
       (match dictGet fd "/Kids" with
        | some (PdfVal.array ks) =>
          setFields pdf ((getFields pdf).set i
            (PdfVal.dict (dictSet fd "/Kids" (PdfVal.array (ks.set j (PdfVal.dict d))))))
        | _ => pdf)
     | _ => pdf)
  | WLoc.kidOfObj n j =>
    (match pdf.get_object n with
     | PdfVal.dict fd =>
       (match dictGet fd "/Kids" with
        | some (PdfVal.array ks) =>
          pdf.setObject n
            (PdfVal.dict (dictSet fd "/Kids" (PdfVal.array (ks.set j (PdfVal.dict d)))))
        | _ => pdf)
     | _ => pdf)
  | WLoc.kidArr m j =>
    (match pdf.get_object m with
     | PdfVal.array ks => pdf.setObject m (PdfVal.array (ks.set j (PdfVal.dict d)))
     | _ => pdf)

/-- In-place mutation of the located widget (`widget[k] = v`,
`del widget[k]`): read the dictionary, transform it, write it back. -/
def widgetUpdate (pdf : Pdf) (loc : WLoc) (f : PdfDict → PdfDict) : Pdf :=
  setW pdf loc (f (getW pdf loc))

/-- The fields array can be written back coherently: the shape of the
`/AcroForm` and `/Fields` slots supports `setFields`. -/
def fieldsWritable (pdf : Pdf) : Bool :=
  match dictGet pdf.root "/AcroForm" with
  | some (PdfVal.dict form) =>
    (match dictGet form "/Fields" with
     | some (PdfVal.array _) => true
     | some (PdfVal.ref m _) =>
       (match pdf.get_object m with
        | PdfVal.array _ => true
        | _ => false)
     | _ => false)
  | some (PdfVal.ref n _) =>
    (match pdf.get_object n with
     | PdfVal.dict form =>
       (match dictGet form "/Fields" with
        | some (PdfVal.array _) => true
        | some (PdfVal.ref m _) =>
          (match pdf.get_object m with
           | PdfVal.array _ => decide (m ≠ n)
           | _ => false)
        | _ => false)
     | _ => false)
  | _ => false

/-- Well-formedness of a widget location: the designated slot exists, so
that `getW` after `setW` reads back the written dictionary. -/
def locValid (pdf : Pdf) : WLoc → Bool
  | WLoc.obj n => (tableGet pdf.table n).isSome
  | WLoc.top i => fieldsWritable pdf && decide (i < (getFields pdf).length)
  | WLoc.kidOfTop i j =>
    fieldsWritable pdf && decide (i < (getFields pdf).length) &&
    (match (getFields pdf).getD i PdfVal.null with
     | PdfVal.dict fd =>
       (match dictGet fd "/Kids" with
        | some (PdfVal.array ks) => decide (j < ks.length)
        | _ => false)
     | _ => false)
  | WLoc.kidOfObj n j =>
    (match pdf.get_object n with
     | PdfVal.dict fd =>
       (match dictGet fd "/Kids" with
        | some (PdfVal.array ks) => decide (j < ks.length)
        | _ => false)
     | _ => false)
  | WLoc.kidArr m j =>
    (match pdf.get_object m with
     | PdfVal.array ks => decide (j < ks.length)
     | _ => false)

/-!
## Mutation operations

Each `change_*` function embeds the `change(pdf)` closure of the
corresponding GUI action: it locates the widget (reporting `false` to the
applicator when not found), mutates it in place, and reports whether a
change occurred.  An exception corresponds to `Except.error`.
-/

/-- The annotation list of a page as iterated by the reporter:
`page.get("/Annots", [])`, with an indirectly stored array auto-resolved;
a missing key or a non-list value reads as the empty list. -/
def pageAnnots (pdf : Pdf) (pn : Nat) : List PdfVal :=
  match asDict (pdf.get_object pn) with
  | none => []
  | some pd =>
    match dictGet pd "/Annots" with
    | none => []
    | some v => asArray (pdf.resolve v)

/-- `fix_annots_page_binding(pdf, widget, page_index)`: point the
widget's `/P` at the page object, create an empty `/Annots` on the page
when missing, and append the widget's reference to the page's annotation
list unless an entry with the same object identity is already present
(identity comparison; direct widgets have no identity and are never
appended). -/
def fix_annots_page_binding (pdf : Pdf) (loc : WLoc) (page_index : Nat) :
    Except String Pdf :=
  match pdf.pages.get? page_index with
  | none => Except.error "page index out of range"
  | some pn =>
    let pdf1 := widgetUpdate pdf loc (fun wd => dictSet wd "/P" (PdfVal.ref pn 0))
    let pageD := (asDict (pdf1.get_object pn)).getD []
    let pdf2 :=
      if dictContains pageD "/Annots" then pdf1
      else pdf1.setObject pn (PdfVal.dict (dictSet pageD "/Annots" (PdfVal.array [])))
    match wObjId loc with
    | none => Except.ok pdf2
    | some w =>
      let pageD2 := (asDict (pdf2.get_object pn)).getD []
      match (dictGet pageD2 "/Annots").getD PdfVal.null with
      | PdfVal.array ks =>
        if ks.any (fun a => objidOf a == some w) then Except.ok pdf2
        else
          Except.ok (pdf2.setObject pn
            (PdfVal.dict (dictSet pageD2 "/Annots" (PdfVal.array (ks ++ [PdfVal.ref w 0])))))
      | PdfVal.ref m _ =>
        (match pdf2.get_object m with
         | PdfVal.array ks =>
           if ks.any (fun a => objidOf a == some w) then Except.ok pdf2
           else Except.ok (pdf2.setObject m (PdfVal.array (ks ++ [PdfVal.ref w 0])))
         | _ => Except.error "page Annots is not iterable")
      | _ => Except.error "page Annots is not iterable"

/-- `action_clear_rect`: set `/Rect` to an explicit empty array. -/
def change_clear_rect (name : String) (pdf : Pdf) : Except String (Pdf × Bool) :=
  match locateW pdf name with
  | none => Except.ok (pdf, false)
  | some loc =>
    Except.ok (widgetUpdate pdf loc (fun wd => dictSet wd "/Rect" (PdfVal.array [])), true)

/-- `action_delete_rect_key`: delete the `/Rect` key when present and
report a change; report no change when the key is absent. -/
def change_delete_rect_key (name : String) (pdf : Pdf) : Except String (Pdf × Bool) :=
  match locateW pdf name with
  | none => Except.ok (pdf, false)
  | some loc =>
    if dictContains (getW pdf loc) "/Rect" then
      Except.ok (widgetUpdate pdf loc (fun wd => dictDel wd "/Rect"), true)
    else Except.ok (pdf, false)

/-- `action_set_rect`: assign the four operator-provided numbers as the
widget's `/Rect`, verbatim. -/
def change_set_rect (name : String) (left bottom right top : ℚ) (pdf : Pdf) :
    Except String (Pdf × Bool) :=
  match locateW pdf name with
  | none => Except.ok (pdf, false)
  | some loc =>
    Except.ok
      (widgetUpdate pdf loc (fun wd => dictSet wd "/Rect"
        (PdfVal.array [PdfVal.num left, PdfVal.num bottom, PdfVal.num right, PdfVal.num top])),
       true)

/-- `action_delete_p`: delete the `/P` key when present.  Note that the
source returns `True` from both branches of the presence test, so a
change is reported even when there was no `/P` to delete. -/
def change_delete_p (name : String) (pdf : Pdf) : Except String (Pdf × Bool) :=
  match locateW pdf name with
  | none => Except.ok (pdf, false)
  | some loc =>
    if dictContains (getW pdf loc) "/P" then
      Except.ok (widgetUpdate pdf loc (fun wd => dictDel wd "/P"), true)
    else Except.ok (pdf, true)

/-- The empty-input branch of `action_set_p`: set `/P` to an explicit
empty array (present but empty). -/
def change_set_p_empty (name : String) (pdf : Pdf) : Except String (Pdf × Bool) :=
  match locateW pdf name with
  | none => Except.ok (pdf, false)
  | some loc =>
    Except.ok (widgetUpdate pdf loc (fun wd => dictSet wd "/P" (PdfVal.array [])), true)

/-- The largest object number present in the table. -/
def maxObjnum (pdf : Pdf) : Nat :=
  pdf.table.foldr (fun e acc => max e.1 acc) 0

/-- `pdf.make_indirect(pikepdf.Dictionary())`: allocate a fresh object
number for a new empty dictionary. -/
def Pdf.makeIndirectDict (pdf : Pdf) : Pdf :=
  { pdf with table := pdf.table ++ [(maxObjnum pdf + 1, PdfVal.dict [])] }

/-- The numeric-input branch of `action_set_p` with 1-based page number
`page`: a page number in range links the widget to the real page and
normalizes the page binding; a page number out of range synthesizes a new
indirect object whose reference identity is forced to the sentinel
`9999 0 R` and assigns that dangling reference as `/P`. -/
def change_set_p_num (name : String) (page : Int) (pdf : Pdf) :
    Except String (Pdf × Bool) :=
  match locateW pdf name with
  | none => Except.ok (pdf, false)
  | some loc =>
    let num_pages := pdf.pages.length
    let page_index : Int := page - 1
    if 0 ≤ page_index ∧ page_index < (num_pages : Int) then
      let pi := page_index.toNat
      let pn := pdf.pages.getD pi 0
      let pdf1 := widgetUpdate pdf loc (fun wd => dictSet wd "/P" (PdfVal.ref pn 0))
      match fix_annots_page_binding pdf1 loc pi with
      | Except.error e => Except.error e
      | Except.ok pdf2 => Except.ok (pdf2, true)
    else
      Except.ok
        (widgetUpdate pdf.makeIndirectDict loc
          (fun wd => dictSet wd "/P" (PdfVal.ref 9999 0)), true)

/-!
## Document Store and Change Applicator

The Document Store holds the current buffer and the undo stack of
previous buffers.  Buffers are an abstract type: parsing and
serialization belong to the external PDF library, so `apply_change` takes
them as fallible functions.  The second component of each result lists
the messages reported to the operator (log lines and dialogs).
-/

/-- The Document Store: `current_pdf_bytes` and `undo_stack`. -/
structure Store (β : Type) where
  current : Option β
  undo_stack : List β
deriving DecidableEq

/-- The error log line of `apply_change`. -/
def errLine (action_name e : String) : String :=
  "ERROR (" ++ action_name ++ "): " ++ e

/-- The success log line of `apply_change`. -/
def okLine (action_name : String) : String :=
  "OK: " ++ action_name

/-- `apply_change(change_func, action_name)`: parse the current buffer,
run the mutation, and on a reported change serialize and commit — pushing
the previous buffer onto the undo stack and replacing the current buffer.
A missing document, a reported no-change, or any failure during parse,
mutation or serialization leaves the store untouched. -/
def apply_change {β : Type} (parse : β → Except String Pdf)
    (saveFn : Pdf → Except String β)
    (change_func : Pdf → Except String (Pdf × Bool)) (action_name : String)
    (st : Store β) : Store β × List String :=
  match st.current with
  | none => (st, ["no PDF is loaded"])
  | some prev =>
    match parse prev with
    | Except.error e => (st, [errLine action_name e])
    | Except.ok pdf =>
      match change_func pdf with
      | Except.error e => (st, [errLine action_name e])
      | Except.ok (pdf2, changed) =>
        if changed = false then (st, [])
        else
          match saveFn pdf2 with
          | Except.error e => (st, [errLine action_name e])
          | Except.ok new_bytes =>
            ({ current := some new_bytes, undo_stack := st.undo_stack ++ [prev] },
             if action_name = "" then [] else [okLine action_name])

/-- The informational message of `action_undo` on an empty stack. -/
def undoEmptyMsg : String := "Undo: nothing to undo"

/-- The log line of a successful `action_undo`. -/
def undoMsg : String := "Undo: rolled back to the previous PDF version"

/-- `action_undo`: pop the most recent buffer off the undo stack and make
it current; on an empty stack report an informational message and leave
the store unchanged. -/
def action_undo {β : Type} (st : Store β) : Store β × List String :=
  match st.undo_stack.getLast? with
  | none => (st, [undoEmptyMsg])
  | some b =>
    ({ current := some b, undo_stack := st.undo_stack.dropLast }, [undoMsg])

/-!
## Field Reporter

`refresh_fields` recomputes the display table from the current document:
one row per widget-subtype annotation, in page order and annotation-list
order.  Number formatting models Python's `str(float(x))` exactly on
values whose decimal expansion is finite and short (as all operator
inputs in the claims are); the shortest-round-trip rendering of general
binary floats is beyond the embedding and never exercised here.
-/

/-- Zero-pad the decimal digits of `m` on the left to width `k`. -/
def padDigits (k m : Nat) : String :=
  let s := toString m
  String.mk (List.replicate (k - s.length) '0') ++ s

/-- `str(float(x))` for a nonnegative rational `num / den` with a finite
decimal expansion: `n.0` on integers, otherwise the shortest exact
expansion, computed on the numerator and denominator with integer
arithmetic (the least `k` with `num·10^k` divisible by `den` gives the
number of fractional digits). -/
def formatFloatNonneg (num den : Nat) : String :=
  match (List.range 400).find? (fun k => num * 10 ^ k % den = 0) with
  | some k =>
    if k = 0 then toString (num / den) ++ ".0"
    else
      let m := num * 10 ^ k / den
      toString (m / 10 ^ k) ++ "." ++ padDigits k (m % 10 ^ k)
  | none => toString num ++ "/" ++ toString den

/-- `str(float(x))` including the sign. -/
def formatFloat (q : ℚ) : String :=
  if q.num < 0 then "-" ++ formatFloatNonneg q.num.natAbs q.den
  else formatFloatNonneg q.num.natAbs q.den

/-- `float(x)` on a PDF value: numbers convert, booleans convert to 0/1,
anything else raises (modelled as `none`). -/
def toFloat : PdfVal → Option ℚ
  | PdfVal.num q => some q
  | PdfVal.bool b => some (if b then 1 else 0)
  | _ => none

/-- Best-effort display string of a raw PDF value, used only for the
non-numeric fallback `str(rect)` of the reporter (no claim depends on its
exact text; it abstracts the library's `repr`). -/
def pdfRawStr : PdfVal → String
  | PdfVal.null => "null"
  | PdfVal.bool b => if b then "True" else "False"
  | PdfVal.num q => if q.den = 1 then toString q.num else toString q.num ++ "/" ++ toString q.den
  | PdfVal.str s => s
  | PdfVal.name s => s
  | PdfVal.array xs => "[ " ++ String.intercalate " " (xs.attach.map (fun x => pdfRawStrItem x.1)) ++ " ]"
  | PdfVal.dict _ => "<< ... >>"
  | PdfVal.ref n g => toString n ++ " " ++ toString g ++ " R"
where
  /-- Non-nested rendering of an array element. -/
  pdfRawStrItem : PdfVal → String
  | PdfVal.null => "null"
  | PdfVal.bool b => if b then "True" else "False"
  | PdfVal.num q => if q.den = 1 then toString q.num else toString q.num ++ "/" ++ toString q.den
  | PdfVal.str s => s
  | PdfVal.name s => s
  | PdfVal.array _ => "[ ... ]"
  | PdfVal.dict _ => "<< ... >>"
  | PdfVal.ref n g => toString n ++ " " ++ toString g ++ " R"

/-- Convert every element of a list by `float`, failing as soon as one
element is not convertible (the generator raises inside `join`). -/
def floatList (pdf : Pdf) : List PdfVal → Option (List ℚ)
  | [] => some []
  | x :: rest =>
    match toFloat (pdf.resolve x), floatList pdf rest with
    | some q, some qs => some (q :: qs)
    | _, _ => none

/-- The numeric contents of a rectangle value: each element of the array
is converted by `float` (elements auto-resolve on access); a non-array or
a non-convertible element raises (modelled as `none`). -/
def rectFloats (pdf : Pdf) : PdfVal → Option (List ℚ)
  | PdfVal.array xs => floatList pdf xs
  | _ => none

/-- The reporter's rectangle column:
`"[" + ", ".join(str(float(x)) for x in rect) + "]"`, falling back to the
raw value's display string when the conversion raises. -/
def rectStr (pdf : Pdf) (v : PdfVal) : String :=
  match rectFloats pdf v with
  | some qs => "[" ++ String.intercalate ", " (qs.map formatFloat) ++ "]"
  | none => pdfRawStr v

/-- The linked-page column of a row: blank, a 1-based page number, or the
string `"(invalid)"` (in Python the column mixes `int` and `str`). -/
inductive PageCell : Type where
  | blank : PageCell
  | num (n : Nat) : PageCell
  | invalid : PageCell
deriving DecidableEq, Repr

/-- The scan of `refresh_fields` over the physical pages: return the
0-based index of the first page whose object number equals `n`
(`for i in range(len(doc_fitz)): if doc_fitz[i].xref == target_xref`). -/
def scanPages (n : Nat) : Nat → List Nat → Option Nat
  | _, [] => none
  | i, x :: rest => if x = n then some i else scanPages n (i + 1) rest

/-- The reporter's linked-page resolution: absent `/P` is blank; a link
without an object identity (reading `objgen` raises, and the handler
yields `"(invalid)"`), or whose object number matches no real page's, is
`"(invalid)"`; otherwise the 1-based index of the first matching page. -/
def pageCellOfP (pdf : Pdf) (p : Option PdfVal) : PageCell :=
  match p with
  | none => PageCell.blank
  | some v =>
    match objgenOf v with
    | none => PageCell.invalid
    | some (n, _) =>
      match scanPages n 0 pdf.pages with
      | some i => PageCell.num (i + 1)
      | none => PageCell.invalid

/-- The reporter's link-descriptor column: blank when `/P` is absent,
`"objnum gennum R"` for a reference, `"(inline)"` otherwise. -/
def pageIdOf : Option PdfVal → String
  | none => ""
  | some v =>
    match objgenOf v with
    | some (n, g) => toString n ++ " " ++ toString g ++ " R"
    | none => "(inline)"

/-- One row of the reporter's table. -/
structure Row where
  name : PdfVal
  physPage : Nat
  page : PageCell
  pageId : String
  rect : String

/-- Build the row for one annotation of the page at (0-based) physical
index `phys_page_index`; non-widget annotations produce no row. -/
def rowOfAnnot (pdf : Pdf) (phys_page_index : Nat) (annot : PdfVal) : Option Row :=
  let ad := pdf.resolve annot
  match valGet ad "/Subtype" with
  | some (PdfVal.name s) =>
    if s = "/Widget" then
      some { name := (valGet ad "/T").getD (PdfVal.str "")
           , physPage := phys_page_index + 1
           , page := pageCellOfP pdf (valGet ad "/P")
           , pageId := pageIdOf (valGet ad "/P")
           , rect := rectStr pdf ((valGet ad "/Rect").getD (PdfVal.array [])) }
    else none
  | _ => none

/-- Inner loop of `refresh_fields` over one page's annotation list. -/
def annotRows (pdf : Pdf) (i : Nat) : List PdfVal → List Row
  | [] => []
  | a :: rest =>
    match rowOfAnnot pdf i a with
    | none => annotRows pdf i rest
    | some r => r :: annotRows pdf i rest

/-- Outer loop of `refresh_fields` over the pages in document order. -/
def pageLoop (pdf : Pdf) : Nat → List Nat → List Row
  | _, [] => []
  | i, pn :: rest => annotRows pdf i (pageAnnots pdf pn) ++ pageLoop pdf (i + 1) rest

/-- `refresh_fields()`: the reporter's table for the current document,
fully recomputed. -/
def refresh_fields (pdf : Pdf) : List Row :=
  pageLoop pdf 0 pdf.pages

/-- Modelled from the specification's wording of the reporter contract:
"the page number resolved by following the field's page-link attribute",
determined by "scanning all pages for one whose underlying object
identity matches the link's target identity (first match)". -/
def linkedPageColumn (pdf : Pdf) (link : Option PdfVal) : PageCell :=
  match link with
  | none => PageCell.blank
  | some v =>
    match objgenOf v with
    | some (n, _) =>
      (match (pdf.pages.enum.find? (fun ip => ip.2 == n)) with
       | some ip => PageCell.num (ip.1 + 1)
       | none => PageCell.invalid)
    | none => PageCell.invalid

/-- Modelled from the specification's wording: one row per widget-type
annotation, carrying the field name, the 1-based physical page number,
the resolved linked page, the raw link descriptor, and the formatted
rectangle string. -/
def rowSpec (pdf : Pdf) (phys_page_index : Nat) (annot : PdfVal) : Option Row :=
  let ad := pdf.resolve annot
  match valGet ad "/Subtype" with
  | some (PdfVal.name s) =>
    if s = "/Widget" then
      some { name := (valGet ad "/T").getD (PdfVal.str "")
           , physPage := phys_page_index + 1
           , page := linkedPageColumn pdf (valGet ad "/P")
           , pageId := pageIdOf (valGet ad "/P")
           , rect := rectStr pdf ((valGet ad "/Rect").getD (PdfVal.array [])) }
    else none
  | _ => none

/-- Modelled from the specification's wording of the reporter algorithm:
for every page in document order, for every annotation in that page's
annotation list in order, skip non-widget annotations and emit a row. -/
def refresh_fields_spec (pdf : Pdf) : List Row :=
  pdf.pages.enum.flatMap (fun ip => (pageAnnots pdf ip.2).filterMap (rowSpec pdf ip.1))

/-- Modelled from the specification's wording of the Field Locator
algorithm, for one top-level entry: resolve it; if it has a child list,
return the first resolved child whose name attribute equals the target;
otherwise return the entry itself when its own name attribute equals the
target. -/
def entryMatch (pdf : Pdf) (target : String) (entry : PdfVal) : Option PdfVal :=
  let obj := pdf.resolve entry
  (if valContains obj "/Kids" then
    (kidsList pdf obj).findSome? (fun kid =>
      if tMatches (valGet (pdf.resolve kid) "/T") target then some (pdf.resolve kid)
      else none)
  else none).orElse
    (fun _ => if tMatches (valGet obj "/T") target then some obj else none)

/-- Modelled from the specification's wording of the Field Locator
contract: iterate the form's top-level field list in order and return
the first match; not-found when there is no form dictionary, no field
list, or no name matches. -/
def load_widget_spec (pdf : Pdf) (target : String) : Option PdfVal :=
  if dictContains pdf.root "/AcroForm" = false then none
  else if valContains (formObj pdf) "/Fields" = false then none
  else (getFields pdf).findSome? (entryMatch pdf target)

/-!
## Basic lemmas on dictionaries, the object table, and page scans
-/

theorem dictGet_dictSet_self (d : PdfDict) (k : String) (v : PdfVal) :
    dictGet (dictSet d k v) k = some v := by
  induction d with
  | nil => simp [dictSet, dictGet]
  | cons e rest ih =>
    obtain ⟨k2, w⟩ := e
    by_cases h : k2 = k
    · subst h; simp [dictSet, dictGet]
    · simp [dictSet, dictGet, h, ih]

theorem dictGet_dictSet_ne (d : PdfDict) (k k2 : String) (v : PdfVal)
    (h : k2 ≠ k) : dictGet (dictSet d k v) k2 = dictGet d k2 := by
  induction d with
  | nil => simp [dictSet, dictGet, h.symm]
  | cons e rest ih =>
    obtain ⟨k3, w⟩ := e
    by_cases h3 : k3 = k
    · subst h3
      simp [dictSet, dictGet, h.symm]
    · simp [dictSet, dictGet, h3, ih]

theorem dictGet_dictDel_self (d : PdfDict) (k : String) :
    dictGet (dictDel d k) k = none := by
  induction d with
  | nil => simp [dictDel, dictGet]
  | cons e rest ih =>
    obtain ⟨k2, w⟩ := e
    by_cases h : k2 = k
    · subst h; simp [dictDel, dictGet, ih]
    · simp [dictDel, dictGet, h, ih]

theorem dictGet_dictDel_ne (d : PdfDict) (k k2 : String) (h : k2 ≠ k) :
    dictGet (dictDel d k) k2 = dictGet d k2 := by
  induction d with
  | nil => simp [dictDel, dictGet]
  | cons e rest ih =>
    obtain ⟨k3, w⟩ := e
    by_cases h3 : k3 = k
    · subst h3
      simp [dictDel, dictGet, h.symm, ih]
    · simp [dictDel, dictGet, h3, ih]

theorem tableGet_tableSetL_self (t : List (Nat × PdfVal)) (n : Nat) (v : PdfVal)
    (h : (tableGet t n).isSome) : tableGet (tableSetL t n v) n = some v := by
  induction t with
  | nil => simp [tableGet] at h
  | cons e rest ih =>
    obtain ⟨n2, w⟩ := e
    by_cases h2 : n2 = n
    · subst h2; simp [tableSetL, tableGet]
    · simp only [tableGet, if_neg h2] at h
      simp [tableSetL, tableGet, h2, ih h]

theorem tableGet_tableSetL_ne (t : List (Nat × PdfVal)) (n n2 : Nat) (v : PdfVal)
    (h : n2 ≠ n) : tableGet (tableSetL t n v) n2 = tableGet t n2 := by
  induction t with
  | nil => simp [tableSetL, tableGet]
  | cons e rest ih =>
    obtain ⟨n3, w⟩ := e
    by_cases h3 : n3 = n
    · subst h3
      simp [tableSetL, tableGet, h.symm]
    · simp [tableSetL, tableGet, h3, ih]

theorem tableGet_append_some (t l : List (Nat × PdfVal)) (n : Nat) (v : PdfVal)
    (h : tableGet t n = some v) : tableGet (t ++ l) n = some v := by
  induction t with
  | nil => simp [tableGet] at h
  | cons e rest ih =>
    obtain ⟨n2, w⟩ := e
    by_cases h2 : n2 = n
    · subst h2
      simp [tableGet] at h
      simp [tableGet, h]
    · simp only [tableGet, if_neg h2] at h
      simp [tableGet, h2, ih h]

theorem scanPages_eq_none (l : List Nat) (n : Nat) (h : ∀ x ∈ l, x ≠ n) :
    ∀ i, scanPages n i l = none := by
  induction l with
  | nil => intro i; rfl
  | cons x rest ih =>
    intro i
    have hx : x ≠ n := h x (List.mem_cons_self x rest)
    simp only [scanPages, if_neg hx]
    exact ih (fun y hy => h y (List.mem_cons_of_mem x hy)) (i + 1)

theorem scanPages_nodup (l : List Nat) (n : Nat) (j : Nat)
    (hnd : l.Nodup) (hj : l.get? j = some n) :
    ∀ i, scanPages n i l = some (i + j) := by
  induction l generalizing j with
  | nil => simp at hj
  | cons x rest ih =>
    intro i
    match j with
    | 0 =>
      simp only [List.get?] at hj
      obtain rfl := Option.some.inj hj
      simp [scanPages]
    | j' + 1 =>
      simp only [List.get?] at hj
      have hmem : n ∈ rest := List.get?_mem hj
      have hx : x ≠ n := by
        intro hh
        subst hh
        exact (List.nodup_cons.mp hnd).1 hmem
      simp only [scanPages, if_neg hx]
      have := ih j' (List.nodup_cons.mp hnd).2 hj (i + 1)
      rw [this]
      congr 1
      omega

theorem getD_set_self (xs : List PdfVal) (i : Nat) (v d : PdfVal)
    (h : i < xs.length) : (xs.set i v).getD i d = v := by
  induction xs generalizing i with
  | nil => simp at h
  | cons x rest ih =>
    match i with
    | 0 => rfl
    | i' + 1 =>
      simp only [List.length_cons] at h
      simpa [List.set, List.getD, List.get?] using ih i' (by omega)

/-!
## Reading back a written widget

`setObject`, `setFields` and `setW` commute with the corresponding reads
whenever the written slot exists (`locValid`): mutating the located
widget and reading it back yields the written dictionary, and the page
list is never affected.
-/

@[simp] theorem root_setObject (pdf : Pdf) (n : Nat) (v : PdfVal) :
    (pdf.setObject n v).root = pdf.root := rfl

@[simp] theorem pages_setObject (pdf : Pdf) (n : Nat) (v : PdfVal) :
    (pdf.setObject n v).pages = pdf.pages := rfl

theorem get_object_setObject_self (pdf : Pdf) (n : Nat) (v : PdfVal)
    (h : (tableGet pdf.table n).isSome) :
    (pdf.setObject n v).get_object n = v := by
  unfold Pdf.get_object Pdf.setObject
  simp [tableGet_tableSetL_self _ _ _ h]

theorem get_object_setObject_ne (pdf : Pdf) (n n2 : Nat) (v : PdfVal)
    (h : n2 ≠ n) : (pdf.setObject n v).get_object n2 = pdf.get_object n2 := by
  unfold Pdf.get_object Pdf.setObject
  simp [tableGet_tableSetL_ne _ _ _ _ h]

theorem tableGet_of_get_object (pdf : Pdf) (n : Nat) (v : PdfVal)
    (h : pdf.get_object n = v) (hv : v ≠ PdfVal.null) :
    tableGet pdf.table n = some v := by
  unfold Pdf.get_object at h
  rcases ht : tableGet pdf.table n with _ | w
  · rw [ht] at h
    simp only [Option.getD_none] at h
    exact absurd h.symm hv
  · rw [ht] at h
    simp only [Option.getD_some] at h
    rw [h]

theorem pages_setFields (pdf : Pdf) (xs : List PdfVal) :
    (setFields pdf xs).pages = pdf.pages := by
  unfold setFields
  split
  · split <;> rfl
  · split
    · split <;> rfl
    · rfl
  · rfl

theorem getFields_setFields (pdf : Pdf) (xs : List PdfVal)
    (h : fieldsWritable pdf = true) : getFields (setFields pdf xs) = xs := by
  unfold fieldsWritable at h
  rcases hA : dictGet pdf.root "/AcroForm" with _ | vA <;> rw [hA] at h
  · simp at h
  · cases vA <;> try simp at h
    case dict form =>
      rcases hF : dictGet form "/Fields" with _ | vF <;> rw [hF] at h
      · simp at h
      · cases vF <;> try simp at h
        case array ys =>
          simp [setFields, hA, hF, getFields, fieldsVal, formObj, acroFormVal,
            dictGet_dictSet_self, Pdf.resolve, valGet, asDict, asArray]
        case ref m g =>
          rcases hm : pdf.get_object m with _ | _ | _ | _ | _ | ks | _ | _ <;>
            rw [hm] at h <;> try simp at h
          have hsome : (tableGet pdf.table m).isSome := by
            rw [tableGet_of_get_object pdf m _ hm (by simp)]; rfl
          simp [setFields, hA, hF, getFields, fieldsVal, formObj, acroFormVal,
            Pdf.resolve, valGet, asDict, asArray,
            get_object_setObject_self _ _ _ hsome]
    case ref n g =>
      rcases hO : pdf.get_object n with _ | _ | _ | _ | _ | _ | form | _ <;>
        rw [hO] at h <;> try simp at h
      have hnsome : (tableGet pdf.table n).isSome := by
        rw [tableGet_of_get_object pdf n _ hO (by simp)]; rfl
      rcases hF : dictGet form "/Fields" with _ | vF <;> rw [hF] at h
      · simp at h
      · cases vF <;> try simp at h
        case array ys =>
          simp [setFields, hA, hO, hF, getFields, fieldsVal, formObj, acroFormVal,
            Pdf.resolve, valGet, asDict, asArray,
            get_object_setObject_self _ _ _ hnsome, dictGet_dictSet_self]
        case ref m g2 =>
          rcases hm : pdf.get_object m with _ | _ | _ | _ | _ | ks | _ | _ <;>
            rw [hm] at h <;> try simp at h
          have hmn : m ≠ n := by
            simpa [decide_eq_true_eq] using h
          have hmsome : (tableGet pdf.table m).isSome := by
            rw [tableGet_of_get_object pdf m _ hm (by simp)]; rfl
          simp [setFields, hA, hO, hF, getFields, fieldsVal, formObj, acroFormVal,
            Pdf.resolve, valGet, asDict, asArray,
            get_object_setObject_ne _ _ _ _ hmn.symm, hO,
            get_object_setObject_self _ _ _ hmsome]

theorem pages_setW (pdf : Pdf) (loc : WLoc) (d : PdfDict) :
    (setW pdf loc d).pages = pdf.pages := by
  cases loc with
  | obj n => rfl
  | top i => exact pages_setFields _ _
  | kidOfTop i j =>
    simp only [setW]
    split
    · split
      · exact pages_setFields _ _
      · rfl
    · rfl
  | kidOfObj n j =>
    simp only [setW]
    split
    · split <;> rfl
    · rfl
  | kidArr m j =>
    simp only [setW]
    split <;> rfl

theorem locVal_setW (pdf : Pdf) (loc : WLoc) (d : PdfDict)
    (h : locValid pdf loc = true) :
    locVal (setW pdf loc d) loc = PdfVal.dict d := by
  cases loc with
  | obj n =>
    simp only [locValid] at h
    simp only [setW, locVal]
    rw [get_object_setObject_self _ _ _ h]
  | top i =>
    simp only [locValid, Bool.and_eq_true, decide_eq_true_eq] at h
    obtain ⟨hw, hlen⟩ := h
    simp only [setW, locVal]
    rw [getFields_setFields _ _ hw]
    exact getD_set_self _ _ _ _ hlen
  | kidOfTop i j =>
    simp only [locValid, Bool.and_eq_true, decide_eq_true_eq] at h
    obtain ⟨⟨hw, hlen⟩, hk⟩ := h
    split at hk
    · rename_i fd hFi
      split at hk
      · rename_i ks hK
        rw [decide_eq_true_eq] at hk
        simp only [setW, hFi, hK, locVal]
        rw [getFields_setFields _ _ hw,
          getD_set_self _ _ _ _ (by simpa using hlen)]
        simp only [kidsList, valGet, asDict, dictGet_dictSet_self,
          Option.getD_some, Pdf.resolve, asArray]
        exact getD_set_self _ _ _ _ hk
      · simp at hk
    · simp at hk
  | kidOfObj n j =>
    simp only [locValid] at h
    split at h
    · rename_i fd hO
      split at h
      · rename_i ks hK
        rw [decide_eq_true_eq] at h
        have hnsome : (tableGet pdf.table n).isSome := by
          rw [tableGet_of_get_object pdf n _ hO (by simp)]; rfl
        simp only [setW, hO, hK, locVal]
        rw [get_object_setObject_self _ _ _ hnsome]
        simp only [kidsList, valGet, asDict, dictGet_dictSet_self,
          Option.getD_some, Pdf.resolve, asArray]
        exact getD_set_self _ _ _ _ h
      · simp at h
    · simp at h
  | kidArr m j =>
    simp only [locValid] at h
    split at h
    · rename_i ks hm
      rw [decide_eq_true_eq] at h
      have hmsome : (tableGet pdf.table m).isSome := by
        rw [tableGet_of_get_object pdf m _ hm (by simp)]; rfl
      simp only [setW, hm, locVal]
      rw [get_object_setObject_self _ _ _ hmsome]
      simp only [asArray]
      exact getD_set_self _ _ _ _ h
    · simp at h

theorem getW_setW (pdf : Pdf) (loc : WLoc) (d : PdfDict)
    (h : locValid pdf loc = true) : getW (setW pdf loc d) loc = d := by
  unfold getW
  rw [locVal_setW _ _ _ h]
  rfl

/-!
## Page well-formedness and frame lemmas

A page object is well formed when it is a dictionary whose `/Annots` is
either absent or an inline array; mutations that do not touch the page's
table entry then leave its annotation list unchanged.
-/

/-- The page object is a dictionary and its `/Annots`, if present, is an
inline array. -/
def pageWFb (pdf : Pdf) (pn : Nat) : Bool :=
  match pdf.get_object pn with
  | PdfVal.dict pd =>
    (match dictGet pd "/Annots" with
     | none => true
     | some (PdfVal.array _) => true
     | _ => false)
  | _ => false

/-- Number of entries of an annotation list whose object identity is the
widget's object number. -/
def countW (l : List PdfVal) (w : Nat) : Nat :=
  l.countP (fun a => objidOf a == some w)

theorem pageWFb_dict (pdf : Pdf) (pn : Nat) (h : pageWFb pdf pn = true) :
    ∃ pd, pdf.get_object pn = PdfVal.dict pd ∧
      (dictGet pd "/Annots" = none ∨
        ∃ ks, dictGet pd "/Annots" = some (PdfVal.array ks)) := by
  unfold pageWFb at h
  split at h
  · rename_i pd hO
    refine ⟨pd, hO, ?_⟩
    split at h
    · rename_i hA
      exact Or.inl hA
    · rename_i ks hA
      exact Or.inr ⟨ks, hA⟩
    · simp at h
  · simp at h

theorem get_object_makeIndirect_of_some (pdf : Pdf) (n : Nat) (v : PdfVal)
    (h : tableGet pdf.table n = some v) :
    pdf.makeIndirectDict.get_object n = v := by
  unfold Pdf.makeIndirectDict Pdf.get_object
  simp [tableGet_append_some _ _ _ _ h]

@[simp] theorem pages_makeIndirect (pdf : Pdf) :
    pdf.makeIndirectDict.pages = pdf.pages := rfl

@[simp] theorem root_makeIndirect (pdf : Pdf) :
    pdf.makeIndirectDict.root = pdf.root := rfl

theorem pageAnnots_eq_of_get_object_eq (pdf1 pdf2 : Pdf) (pn : Nat)
    (hg : pdf1.get_object pn = pdf2.get_object pn)
    (hwf : pageWFb pdf2 pn = true) :
    pageAnnots pdf1 pn = pageAnnots pdf2 pn := by
  obtain ⟨pd, hO, hA⟩ := pageWFb_dict pdf2 pn hwf
  unfold pageAnnots
  rw [hg, hO]
  simp only [asDict]
  rcases hA with hA | ⟨ks, hA⟩
  · rw [hA]
  · rw [hA]
    simp [Pdf.resolve]

theorem getD_of_get? {α : Type} (l : List α) (i : Nat) (a d : α)
    (h : l.get? i = some a) : l.getD i d = a := by
  simp [List.getD, ← List.get?_eq_getElem?, h]

/-- Effect of `fix_annots_page_binding` on an indirect widget whose
target page is well formed and does not already list the widget: the
widget's `/P` points at the page, the widget's reference is appended to
the (possibly freshly created) annotation list, and every other object is
untouched. -/
theorem fix_annots_obj (pdf1 : Pdf) (w pi pn : Nat) (pd : PdfDict)
    (hpg : pdf1.pages.get? pi = some pn)
    (hvalid1 : (tableGet pdf1.table w).isSome)
    (hpnw : pn ≠ w)
    (hpage : pdf1.get_object pn = PdfVal.dict pd)
    (hA : dictGet pd "/Annots" = none ∨
      ∃ ks, dictGet pd "/Annots" = some (PdfVal.array ks))
    (hnot : ∀ a ∈ pageAnnots pdf1 pn, (objidOf a == some w) = false) :
    ∃ pdf2, fix_annots_page_binding pdf1 (WLoc.obj w) pi = Except.ok pdf2 ∧
      pdf2.get_object w =
        PdfVal.dict (dictSet (getW pdf1 (WLoc.obj w)) "/P" (PdfVal.ref pn 0)) ∧
      pageAnnots pdf2 pn = pageAnnots pdf1 pn ++ [PdfVal.ref w 0] ∧
      (∀ p, p ≠ pn → p ≠ w → pdf2.get_object p = pdf1.get_object p) ∧
      pdf2.pages = pdf1.pages := by
  have hvalid1l : locValid pdf1 (WLoc.obj w) = true := hvalid1
  set d2 := dictSet (getW pdf1 (WLoc.obj w)) "/P" (PdfVal.ref pn 0) with hd2
  set pdf1b := setW pdf1 (WLoc.obj w) d2 with hpdf1b
  have hw1b : pdf1b.get_object w = PdfVal.dict d2 := by
    have := locVal_setW pdf1 (WLoc.obj w) d2 hvalid1l
    simpa [locVal] using this
  have hpage1b : pdf1b.get_object pn = PdfVal.dict pd := by
    rw [hpdf1b]
    simp only [setW]
    rw [get_object_setObject_ne _ _ _ _ hpnw]
    exact hpage
  have hpn_some : (tableGet pdf1b.table pn).isSome := by
    rw [tableGet_of_get_object pdf1b pn _ hpage1b (by simp)]; rfl
  have hframe1b : ∀ p, p ≠ w → pdf1b.get_object p = pdf1.get_object p := by
    intro p hp
    rw [hpdf1b]
    simp only [setW]
    exact get_object_setObject_ne _ _ _ _ hp
  rcases hA with hA | ⟨ks, hA⟩
  · -- `/Annots` absent: it is first created empty, then the widget
    -- reference is appended.
    have hann1 : pageAnnots pdf1 pn = [] := by
      simp [pageAnnots, hpage, asDict, hA]
    set pdA := dictSet pd "/Annots" (PdfVal.array []) with hpdA
    set pdf2 := pdf1b.setObject pn (PdfVal.dict pdA) with hpdf2
    have hpage2 : pdf2.get_object pn = PdfVal.dict pdA := by
      rw [hpdf2]
      exact get_object_setObject_self _ _ _ hpn_some
    have hpn_some2 : (tableGet pdf2.table pn).isSome := by
      rw [tableGet_of_get_object pdf2 pn _ hpage2 (by simp)]; rfl
    set pdF := dictSet pdA "/Annots" (PdfVal.array ([] ++ [PdfVal.ref w 0])) with hpdF
    set pdfF := pdf2.setObject pn (PdfVal.dict pdF) with hpdfF
    have hpageF : pdfF.get_object pn = PdfVal.dict pdF := by
      rw [hpdfF]
      exact get_object_setObject_self _ _ _ hpn_some2
    refine ⟨pdfF, ?_, ?_, ?_, ?_, ?_⟩
    · simp only [fix_annots_page_binding]
      rw [hpg]
      simp only [widgetUpdate, ← hd2, ← hpdf1b, hpage1b, asDict, Option.getD_some,
        dictContains, hA, Option.isSome_none, Bool.false_eq_true, if_false,
        ← hpdA, ← hpdf2, wObjId, hpage2]
      rw [hpdA, dictGet_dictSet_self]
      simp only [Option.getD_some, List.any_nil, Bool.false_eq_true, if_false]
    · rw [hpdfF, get_object_setObject_ne _ _ _ _ (Ne.symm hpnw), hpdf2,
        get_object_setObject_ne _ _ _ _ (Ne.symm hpnw)]
      exact hw1b
    · rw [hann1]
      simp [pageAnnots, hpageF, asDict, hpdF, dictGet_dictSet_self, Pdf.resolve, asArray]
    · intro p hppn hpw
      rw [hpdfF, get_object_setObject_ne _ _ _ _ hppn, hpdf2,
        get_object_setObject_ne _ _ _ _ hppn]
      exact hframe1b p hpw
    · rw [hpdfF, pages_setObject, hpdf2, pages_setObject, hpdf1b, pages_setW]
  · -- `/Annots` present as an inline array: the widget reference is
    -- appended after the identity scan finds no duplicate.
    have hann1 : pageAnnots pdf1 pn = ks := by
      simp [pageAnnots, hpage, asDict, hA, Pdf.resolve, asArray]
    have hany : ks.any (fun a => objidOf a == some w) = false := by
      rw [List.any_eq_false]
      intro a ha
      have := hnot a (by rw [hann1]; exact ha)
      simpa using this
    set pdF := dictSet pd "/Annots" (PdfVal.array (ks ++ [PdfVal.ref w 0])) with hpdF
    set pdfF := pdf1b.setObject pn (PdfVal.dict pdF) with hpdfF
    have hpageF : pdfF.get_object pn = PdfVal.dict pdF := by
      rw [hpdfF]
      exact get_object_setObject_self _ _ _ hpn_some
    refine ⟨pdfF, ?_, ?_, ?_, ?_, ?_⟩
    · simp only [fix_annots_page_binding]
      rw [hpg]
      simp only [widgetUpdate, ← hd2, ← hpdf1b, hpage1b, asDict, Option.getD_some,
        dictContains, hA, Option.isSome_some, if_true, wObjId,
        dictGet_dictSet_self, hany, Bool.false_eq_true, if_false, ← hpdF, ← hpdfF]
    · rw [hpdfF, get_object_setObject_ne _ _ _ _ (Ne.symm hpnw)]
      exact hw1b
    · rw [hann1]
      simp [pageAnnots, hpageF, asDict, hpdF, dictGet_dictSet_self, Pdf.resolve, asArray]
    · intro p hppn hpw
      rw [hpdfF, get_object_setObject_ne _ _ _ _ hppn]
      exact hframe1b p hpw
    · rw [hpdfF, pages_setObject, hpdf1b, pages_setW]

/-!
## Concrete documents used by the witnesses

`samplePdf` has one page (object 1) and one widget field named `f`
(object 5, referenced from the fields array) carrying neither `/P` nor
`/Rect`.
-/

/-- A tiny concrete document for witnesses. -/
def samplePdf : Pdf :=
  { table := [(1, PdfVal.dict [("/Type", PdfVal.name "/Page")]),
              (5, PdfVal.dict [("/T", PdfVal.str "f"), ("/Subtype", PdfVal.name "/Widget")])]
  , pages := [1]
  , root := [("/AcroForm", PdfVal.dict [("/Fields", PdfVal.array [PdfVal.ref 5 0])])] }

/-!
## Claims about the Change Applicator and the undo stack
-/

/-- C1: for every mutation procedure and action label, if parsing the
current buffer, running the mutation, or serializing the result fails,
`apply_change` catches the exception, logs it with the action label, and
leaves the Document Store completely unchanged: the previous buffer
remains current and nothing is pushed onto the history stack. -/
theorem apply_change_failure_leaves_store_unchanged {β : Type}
    (parse : β → Except String Pdf) (saveFn : Pdf → Except String β)
    (change_func : Pdf → Except String (Pdf × Bool)) (action_name : String)
    (st : Store β) (prev : β) (e : String)
    (hcur : st.current = some prev)
    (herr : parse prev = Except.error e
      ∨ (∃ pdf, parse prev = Except.ok pdf ∧ change_func pdf = Except.error e)
      ∨ (∃ pdf pdf2, parse prev = Except.ok pdf ∧
          change_func pdf = Except.ok (pdf2, true) ∧ saveFn pdf2 = Except.error e)) :
    apply_change parse saveFn change_func action_name st
      = (st, [errLine action_name e]) := by
  rcases herr with h1 | ⟨pdf, h1, h2⟩ | ⟨pdf, pdf2, h1, h2, h3⟩
  · simp [apply_change, hcur, h1]
  · simp [apply_change, hcur, h1, h2]
  · simp [apply_change, hcur, h1, h2, h3]

theorem apply_change_failure_witness :
    apply_change (fun (_ : Nat) => Except.error "parse failed")
      (fun _ => Except.ok 1) (fun p => Except.ok (p, true)) "Set /Rect"
      { current := some 0, undo_stack := [] }
      = ({ current := some 0, undo_stack := [] }, [errLine "Set /Rect" "parse failed"]) :=
  apply_change_failure_leaves_store_unchanged _ _ _ _ _ 0 "parse failed" rfl (Or.inl rfl)

/-- C3: after any successful mutation through `apply_change` (one that
changed the store), immediately performing undo restores the store
exactly: the buffer that was current before the mutation is current again
(byte-for-byte the same buffer) and the history stack returns to its
pre-operation state, in particular its length. -/
theorem apply_change_then_undo_restores {β : Type}
    (parse : β → Except String Pdf) (saveFn : Pdf → Except String β)
    (change_func : Pdf → Except String (Pdf × Bool)) (action_name : String)
    (st : Store β)
    (hsucc : (apply_change parse saveFn change_func action_name st).1 ≠ st) :
    (action_undo (apply_change parse saveFn change_func action_name st).1).1 = st := by
  rcases hc : st.current with _ | prev
  · simp [apply_change, hc] at hsucc
  · rcases hp : parse prev with e | pdf
    · simp [apply_change, hc, hp] at hsucc
    · rcases hcf : change_func pdf with e | pb
      · simp [apply_change, hc, hp, hcf] at hsucc
      · obtain ⟨pdf2, changed⟩ := pb
        cases changed
        · simp [apply_change, hc, hp, hcf] at hsucc
        · rcases hs : saveFn pdf2 with e | nb
          · simp [apply_change, hc, hp, hcf, hs] at hsucc
          · simp only [apply_change, hc, hp, hcf, hs]
            simp only [action_undo]
            simp [List.getLast?_concat, List.dropLast_concat]
            cases st with
            | mk cur us =>
              simp only at hc
              simp [hc]

theorem apply_change_then_undo_restores_witness :
    (action_undo (apply_change (fun (_ : Nat) => Except.ok samplePdf)
        (fun _ => Except.ok 1) (change_set_p_empty "f") "Set empty /P"
        { current := some 0, undo_stack := [] }).1).1
      = { current := some 0, undo_stack := [] } :=
  apply_change_then_undo_restores _ _ _ _ _ (by decide)

/-- C7: "Delete rectangle key" on a located field with no `/Rect`
attribute is a no-op: the change function reports `false`, and the
applicator leaves the store untouched — nothing is pushed onto history
and the current buffer is unchanged (same buffer, no byte change). -/
theorem delete_rect_key_absent_noop {β : Type}
    (parse : β → Except String Pdf) (saveFn : Pdf → Except String β)
    (action_name name : String) (st : Store β) (prev : β) (pdf : Pdf) (loc : WLoc)
    (hcur : st.current = some prev) (hparse : parse prev = Except.ok pdf)
    (hloc : locateW pdf name = some loc)
    (hnorect : dictContains (getW pdf loc) "/Rect" = false) :
    change_delete_rect_key name pdf = Except.ok (pdf, false) ∧
    apply_change parse saveFn (change_delete_rect_key name) action_name st = (st, []) := by
  have hch : change_delete_rect_key name pdf = Except.ok (pdf, false) := by
    simp [change_delete_rect_key, hloc, hnorect]
  exact ⟨hch, by simp [apply_change, hcur, hparse, hch]⟩

theorem delete_rect_key_absent_noop_witness :
    change_delete_rect_key "f" samplePdf = Except.ok (samplePdf, false) ∧
    apply_change (fun (_ : Nat) => Except.ok samplePdf) (fun _ => Except.ok 1)
      (change_delete_rect_key "f") "Delete /Rect key"
      { current := some 0, undo_stack := [] }
      = ({ current := some 0, undo_stack := [] }, []) :=
  delete_rect_key_absent_noop _ _ _ "f" _ 0 samplePdf (WLoc.obj 5) rfl rfl rfl rfl

/-- C10: invoking undo with an empty history stack is a safe no-op: an
informational message is reported, the current buffer and the (empty)
stack are unchanged, and the function returns normally (no exception
propagates — the embedding is total). -/
theorem undo_empty_stack_noop {β : Type} (st : Store β)
    (h : st.undo_stack = []) :
    action_undo st = (st, [undoEmptyMsg]) := by
  simp [action_undo, h]

theorem undo_empty_stack_noop_witness :
    action_undo { current := some (0 : Nat), undo_stack := [] }
      = ({ current := some 0, undo_stack := [] }, [undoEmptyMsg]) :=
  undo_empty_stack_noop _ rfl

/-- C2 counterexample: on a concrete document whose located field `f`
has no `/P`, the "Delete page link" change function reports `true` — not
`false` as the claim states — and the applicator consequently pushes the
previous buffer onto the history stack and replaces the current one. -/
theorem delete_p_absent_claim_counterexample :
    locateW samplePdf "f" = some (WLoc.obj 5) ∧
    dictContains (getW samplePdf (WLoc.obj 5)) "/P" = false ∧
    change_delete_p "f" samplePdf = Except.ok (samplePdf, true) ∧
    (apply_change (fun (_ : Nat) => Except.ok samplePdf) (fun _ => Except.ok 1)
      (change_delete_p "f") "Delete /P" { current := some 0, undo_stack := [] }).1
      = { current := some 1, undo_stack := [0] } :=
  ⟨rfl, rfl, rfl, rfl⟩

/-- C2 (amended): for every located field without a page-link attribute,
"Delete page link" reports that a change occurred (the source returns
`True` from both branches), so the Change Applicator re-serializes the
structurally unchanged document, pushes the previously current buffer
onto the history stack, and replaces the current buffer with the new
serialization. -/
theorem delete_p_absent_reports_change {β : Type}
    (parse : β → Except String Pdf) (saveFn : Pdf → Except String β)
    (name : String) (st : Store β) (prev nb : β) (pdf : Pdf) (loc : WLoc)
    (hcur : st.current = some prev) (hparse : parse prev = Except.ok pdf)
    (hsave : saveFn pdf = Except.ok nb)
    (hloc : locateW pdf name = some loc)
    (hnop : dictContains (getW pdf loc) "/P" = false) :
    change_delete_p name pdf = Except.ok (pdf, true) ∧
    apply_change parse saveFn (change_delete_p name) "Delete /P" st
      = ({ current := some nb, undo_stack := st.undo_stack ++ [prev] },
         [okLine "Delete /P"]) := by
  have hch : change_delete_p name pdf = Except.ok (pdf, true) := by
    simp [change_delete_p, hloc, hnop]
  refine ⟨hch, ?_⟩
  simp [apply_change, hcur, hparse, hch, hsave]

/-- C8: "Set page link" with empty operator input sets the located
field's `/P` to an explicit empty array — present but empty, hence
distinct from an absent attribute — and it does so unconditionally, so
this holds whether `/P` was previously absent or present. -/
theorem set_p_empty_present_but_empty (pdf : Pdf) (name : String) (loc : WLoc)
    (hloc : locateW pdf name = some loc) (hval : locValid pdf loc = true) :
    ∃ pdf', change_set_p_empty name pdf = Except.ok (pdf', true) ∧
      dictGet (getW pdf' loc) "/P" = some (PdfVal.array []) := by
  refine ⟨widgetUpdate pdf loc (fun wd => dictSet wd "/P" (PdfVal.array [])), ?_, ?_⟩
  · simp [change_set_p_empty, hloc]
  · unfold widgetUpdate
    rw [getW_setW _ _ _ hval, dictGet_dictSet_self]

/-- C4: "Set page link" with a numeric page number outside the valid
range assigns the located field's `/P` the dangling reference `9999 0 R`
(object number 9999, generation 0, corresponding to no real object),
modifies no page's annotation list, and the reporter resolves that link
as "(invalid)": the sentinel matches no real page, and any reporter row
built for this widget shows the invalid linked page. -/
theorem set_p_out_of_range_dangling (pdf : Pdf) (name : String) (w : Nat) (page : Int)
    (hloc : locateW pdf name = some (WLoc.obj w))
    (hval : locValid pdf (WLoc.obj w) = true)
    (hout : ¬ (0 ≤ page - 1 ∧ page - 1 < (pdf.pages.length : Int)))
    (hwnp : ∀ pn ∈ pdf.pages, pn ≠ w)
    (h9999 : ∀ pn ∈ pdf.pages, pn ≠ 9999)
    (hwf : ∀ pn ∈ pdf.pages, pageWFb pdf pn = true) :
    ∃ pdf', change_set_p_num name page pdf = Except.ok (pdf', true) ∧
      dictGet (getW pdf' (WLoc.obj w)) "/P" = some (PdfVal.ref 9999 0) ∧
      (∀ pn ∈ pdf.pages, pageAnnots pdf' pn = pageAnnots pdf pn) ∧
      pdf'.pages = pdf.pages ∧
      pageCellOfP pdf' (some (PdfVal.ref 9999 0)) = PageCell.invalid ∧
      (∀ i a r, objidOf a = some w → rowOfAnnot pdf' i a = some r →
        r.page = PageCell.invalid) := by
  have hvalid0 : locValid pdf.makeIndirectDict (WLoc.obj w) = true := by
    simp only [locValid] at hval ⊢
    obtain ⟨v, hv⟩ := Option.isSome_iff_exists.mp hval
    unfold Pdf.makeIndirectDict
    simp [tableGet_append_some _ _ _ _ hv]
  set pdf0 := pdf.makeIndirectDict with hpdf0
  set dNew := dictSet (getW pdf0 (WLoc.obj w)) "/P" (PdfVal.ref 9999 0) with hdNew
  set pdfX := setW pdf0 (WLoc.obj w) dNew with hpdfX
  have hwidX : pdfX.get_object w = PdfVal.dict dNew := by
    have := locVal_setW pdf0 (WLoc.obj w) dNew hvalid0
    simpa [locVal] using this
  have hpagesX : pdfX.pages = pdf.pages := by
    rw [hpdfX, pages_setW, hpdf0, pages_makeIndirect]
  have hinv : pageCellOfP pdfX (some (PdfVal.ref 9999 0)) = PageCell.invalid := by
    simp only [pageCellOfP, objgenOf]
    rw [hpagesX, scanPages_eq_none _ _ h9999 0]
  refine ⟨pdfX, ?_, ?_, ?_, hpagesX, hinv, ?_⟩
  · simp only [change_set_p_num, hloc]
    rw [if_neg hout]
    rfl
  · rw [hpdfX, getW_setW _ _ _ hvalid0, hdNew, dictGet_dictSet_self]
  · intro pn hpn
    have hne : pn ≠ w := hwnp pn hpn
    obtain ⟨pd, hO, hA⟩ := pageWFb_dict pdf pn (hwf pn hpn)
    have h0 : pdf0.get_object pn = PdfVal.dict pd := by
      rw [hpdf0]
      exact get_object_makeIndirect_of_some pdf pn _
        (tableGet_of_get_object pdf pn _ hO (by simp))
    have hX : pdfX.get_object pn = PdfVal.dict pd := by
      rw [hpdfX]
      simp only [setW]
      rw [get_object_setObject_ne _ _ _ _ hne]
      exact h0
    exact pageAnnots_eq_of_get_object_eq pdfX pdf pn (by rw [hX, hO]) (hwf pn hpn)
  · intro i a r hid hrow
    cases a <;> simp [objidOf] at hid
    case ref n g =>
      subst hid
      simp only [rowOfAnnot, Pdf.resolve, hwidX] at hrow
      split at hrow
      · rename_i s hsub
        split at hrow
        · obtain rfl := Option.some.inj hrow
          show pageCellOfP pdfX (valGet (PdfVal.dict dNew) "/P") = PageCell.invalid
          have hP : valGet (PdfVal.dict dNew) "/P" = some (PdfVal.ref 9999 0) := by
            simp [valGet, asDict, hdNew, dictGet_dictSet_self]
          rw [hP]
          exact hinv
        · exact absurd hrow (by simp)
      · exact absurd hrow (by simp)

theorem set_p_out_of_range_dangling_witness :
    ∃ pdf', change_set_p_num "f" 7 samplePdf = Except.ok (pdf', true) ∧
      dictGet (getW pdf' (WLoc.obj 5)) "/P" = some (PdfVal.ref 9999 0) ∧
      (∀ pn ∈ samplePdf.pages, pageAnnots pdf' pn = pageAnnots samplePdf pn) ∧
      pdf'.pages = samplePdf.pages ∧
      pageCellOfP pdf' (some (PdfVal.ref 9999 0)) = PageCell.invalid ∧
      (∀ i a r, objidOf a = some 5 → rowOfAnnot pdf' i a = some r →
        r.page = PageCell.invalid) :=
  set_p_out_of_range_dangling samplePdf "f" 5 7 rfl rfl (by decide)
    (by decide) (by decide) (by decide)

/-- C5: "Set page link" with a valid 1-based page number N links the
located field's `/P` to page N's object, creates the page's annotation
list when missing, and — since the identity scan finds no entry with the
field's object identity — appends the field's reference, so a field not
previously on any page's annotation list appears exactly once in page
N's list; other pages' annotation lists are untouched, and the
reporter's linked-page resolution of the new link reads N, as does the
linked-page column of any row built for this widget. -/
theorem set_p_valid_binds_page (pdf : Pdf) (name : String) (w N pn : Nat)
    (hloc : locateW pdf name = some (WLoc.obj w))
    (hval : locValid pdf (WLoc.obj w) = true)
    (hN1 : 1 ≤ N)
    (hN : pdf.pages.get? (N - 1) = some pn)
    (hnodup : pdf.pages.Nodup)
    (hwnp : w ∉ pdf.pages)
    (hwf : ∀ p ∈ pdf.pages, pageWFb pdf p = true)
    (hnoton : ∀ p ∈ pdf.pages, countW (pageAnnots pdf p) w = 0) :
    ∃ pdf', change_set_p_num name (N : Int) pdf = Except.ok (pdf', true) ∧
      dictGet (getW pdf' (WLoc.obj w)) "/P" = some (PdfVal.ref pn 0) ∧
      pageAnnots pdf' pn = pageAnnots pdf pn ++ [PdfVal.ref w 0] ∧
      countW (pageAnnots pdf' pn) w = 1 ∧
      (∀ p ∈ pdf.pages, p ≠ pn → pageAnnots pdf' p = pageAnnots pdf p) ∧
      pdf'.pages = pdf.pages ∧
      pageCellOfP pdf' (some (PdfVal.ref pn 0)) = PageCell.num N ∧
      (∀ i a r, objidOf a = some w → rowOfAnnot pdf' i a = some r →
        r.page = PageCell.num N) := by
  have hlt : N - 1 < pdf.pages.length := (List.get?_eq_some.mp hN).1
  have hpn_mem : pn ∈ pdf.pages := List.get?_mem hN
  have hpnw : pn ≠ w := fun h => hwnp (h ▸ hpn_mem)
  have hcond : 0 ≤ (N : Int) - 1 ∧ (N : Int) - 1 < (pdf.pages.length : Int) := by
    constructor <;> omega
  have htoNat : ((N : Int) - 1).toNat = N - 1 := by omega
  have hgetD : pdf.pages.getD (N - 1) 0 = pn := getD_of_get? _ _ _ _ hN
  obtain ⟨pd, hO, hA⟩ := pageWFb_dict pdf pn (hwf pn hpn_mem)
  set d1 := dictSet (getW pdf (WLoc.obj w)) "/P" (PdfVal.ref pn 0) with hd1
  set pdf1 := setW pdf (WLoc.obj w) d1 with hpdf1
  have hvalid1 : (tableGet pdf1.table w).isSome := by
    simp only [locValid] at hval
    obtain ⟨v, hv⟩ := Option.isSome_iff_exists.mp hval
    rw [hpdf1]
    simp only [setW, Pdf.setObject]
    rw [tableGet_tableSetL_self _ _ _ (by rw [hv]; rfl)]
    rfl
  have hpage1 : pdf1.get_object pn = PdfVal.dict pd := by
    rw [hpdf1]
    simp only [setW]
    rw [get_object_setObject_ne _ _ _ _ hpnw]
    exact hO
  have hann1 : pageAnnots pdf1 pn = pageAnnots pdf pn :=
    pageAnnots_eq_of_get_object_eq pdf1 pdf pn (by rw [hpage1, hO]) (hwf pn hpn_mem)
  have hpages1 : pdf1.pages = pdf.pages := by rw [hpdf1, pages_setW]
  have hnot : ∀ a ∈ pageAnnots pdf1 pn, (objidOf a == some w) = false := by
    intro a ha
    rw [hann1] at ha
    have h0 := List.countP_eq_zero.mp (hnoton pn hpn_mem) a ha
    simpa using h0
  obtain ⟨pdfF, hfix, hwF, hannF, hframeF, hpagesF⟩ :=
    fix_annots_obj pdf1 w (N - 1) pn pd (by rw [hpages1]; exact hN)
      hvalid1 hpnw hpage1 hA hnot
  have hpagesFF : pdfF.pages = pdf.pages := by rw [hpagesF, hpages1]
  have hgetWF : getW pdfF (WLoc.obj w)
      = dictSet (getW pdf1 (WLoc.obj w)) "/P" (PdfVal.ref pn 0) := by
    simp only [getW, locVal, hwF, asDict, Option.getD_some]
  have hcell : pageCellOfP pdfF (some (PdfVal.ref pn 0)) = PageCell.num N := by
    have hscan : scanPages pn 0 pdfF.pages = some (N - 1) := by
      rw [hpagesFF, scanPages_nodup pdf.pages pn (N - 1) hnodup hN 0]
      congr 1
      omega
    simp only [pageCellOfP, objgenOf, hscan]
    congr 1
    omega
  refine ⟨pdfF, ?_, ?_, ?_, ?_, ?_, hpagesFF, hcell, ?_⟩
  · simp only [change_set_p_num, hloc]
    rw [if_pos hcond]
    simp only [htoNat, hgetD, widgetUpdate, ← hd1, ← hpdf1]
    rw [hfix]
  · rw [hgetWF, dictGet_dictSet_self]
  · rw [hannF, hann1]
  · rw [hannF, hann1]
    have h0 := hnoton pn hpn_mem
    simp only [countW] at h0 ⊢
    rw [List.countP_append, h0]
    simp [List.countP_cons, objidOf]
  · intro p hp hppn
    have hpw : p ≠ w := fun h => hwnp (h ▸ hp)
    have hgo : pdfF.get_object p = pdf.get_object p := by
      rw [hframeF p hppn hpw, hpdf1]
      simp only [setW]
      exact get_object_setObject_ne _ _ _ _ hpw
    exact pageAnnots_eq_of_get_object_eq pdfF pdf p hgo (hwf p hp)
  · intro i a r hid hrow
    cases a <;> simp [objidOf] at hid
    case ref n g =>
      have hgn : pdfF.get_object n
          = PdfVal.dict (dictSet (getW pdf1 (WLoc.obj w)) "/P" (PdfVal.ref pn 0)) := by
        rw [show n = w by omega]
        exact hwF
      simp only [rowOfAnnot, Pdf.resolve, hgn] at hrow
      split at hrow
      · rename_i s hsub
        split at hrow
        · obtain rfl := Option.some.inj hrow
          show pageCellOfP pdfF
            (valGet (PdfVal.dict (dictSet (getW pdf1 (WLoc.obj w)) "/P"
              (PdfVal.ref pn 0))) "/P") = PageCell.num N
          have hP : valGet (PdfVal.dict (dictSet (getW pdf1 (WLoc.obj w)) "/P"
              (PdfVal.ref pn 0))) "/P" = some (PdfVal.ref pn 0) := by
            simp [valGet, asDict, dictGet_dictSet_self]
          rw [hP]
          exact hcell
        · exact absurd hrow (by simp)
      · exact absurd hrow (by simp)

theorem set_p_valid_binds_page_witness :
    ∃ pdf', change_set_p_num "f" ((1 : Nat) : Int) samplePdf = Except.ok (pdf', true) ∧
      dictGet (getW pdf' (WLoc.obj 5)) "/P" = some (PdfVal.ref 1 0) ∧
      pageAnnots pdf' 1 = pageAnnots samplePdf 1 ++ [PdfVal.ref 5 0] ∧
      countW (pageAnnots pdf' 1) 5 = 1 ∧
      (∀ p ∈ samplePdf.pages, p ≠ 1 → pageAnnots pdf' p = pageAnnots samplePdf p) ∧
      pdf'.pages = samplePdf.pages ∧
      pageCellOfP pdf' (some (PdfVal.ref 1 0)) = PageCell.num 1 ∧
      (∀ i a r, objidOf a = some 5 → rowOfAnnot pdf' i a = some r →
        r.page = PageCell.num 1) :=
  set_p_valid_binds_page samplePdf "f" 5 1 1 rfl rfl (by decide) rfl
    (by decide) (by decide) (by decide) (by decide)

theorem set_p_empty_present_but_empty_witness :
    ∃ pdf', change_set_p_empty "f" samplePdf = Except.ok (pdf', true) ∧
      dictGet (getW pdf' (WLoc.obj 5)) "/P" = some (PdfVal.array []) :=
  set_p_empty_present_but_empty samplePdf "f" (WLoc.obj 5) rfl rfl

theorem delete_p_absent_reports_change_witness :
    change_delete_p "f" samplePdf = Except.ok (samplePdf, true) ∧
    apply_change (fun (_ : Nat) => Except.ok samplePdf) (fun _ => Except.ok 1)
      (change_delete_p "f") "Delete /P" { current := some 0, undo_stack := [] }
      = ({ current := some 1, undo_stack := [] ++ [0] }, [okLine "Delete /P"]) :=
  delete_p_absent_reports_change _ _ "f" _ 0 1 samplePdf (WLoc.obj 5) rfl rfl rfl rfl rfl

/-!
## The Field Locator follows the specified algorithm
-/

theorem kidLoop_eq_findSome (pdf : Pdf) (t : String) (ks : List PdfVal) :
    kidLoop pdf t ks = ks.findSome? (fun kid =>
      if tMatches (valGet (pdf.resolve kid) "/T") t then some (pdf.resolve kid)
      else none) := by
  induction ks with
  | nil => rfl
  | cons k rest ih =>
    simp only [kidLoop, List.findSome?_cons]
    by_cases h : tMatches (valGet (pdf.resolve k) "/T") t = true
    · simp [h]
    · simp [h, ih]

theorem fieldLoop_eq_findSome (pdf : Pdf) (t : String) (l : List PdfVal) :
    fieldLoop pdf t l = l.findSome? (entryMatch pdf t) := by
  induction l with
  | nil => rfl
  | cons f rest ih =>
    simp only [fieldLoop, List.findSome?_cons, entryMatch, kidLoop_eq_findSome]
    rcases hk : (if valContains (pdf.resolve f) "/Kids" = true then
        (kidsList pdf (pdf.resolve f)).findSome? (fun kid =>
          if tMatches (valGet (pdf.resolve kid) "/T") t then some (pdf.resolve kid)
          else none)
      else none) with _ | k
    · simp only [hk, Option.orElse]
      by_cases h : tMatches (valGet (pdf.resolve f) "/T") t = true
      · simp [h]
      · simp [h, ih]
    · simp [hk, Option.orElse]

theorem resolve_eq_self_of_not_ref (pdf : Pdf) (v : PdfVal)
    (h : ∀ n g, v ≠ PdfVal.ref n g) : pdf.resolve v = v := by
  cases v <;> first | rfl | exact absurd rfl (h _ _)

theorem locVal_kidLoc (pdf : Pdf) (i j : Nat) (f kv k : PdfVal)
    (hfi : (getFields pdf).get? i = some f)
    (hkv : kv = (valGet (pdf.resolve f) "/Kids").getD PdfVal.null)
    (hk : (kidsList pdf (pdf.resolve f)).get? j = some k) :
    locVal pdf (kidLoc i f kv j k) = pdf.resolve k := by
  unfold kidLoc
  split
  · rfl
  · rename_i hknr
    have hkself : pdf.resolve k = k := resolve_eq_self_of_not_ref pdf k hknr
    rw [hkself]
    split
    · -- the `/Kids` array itself is stored indirectly
      rename_i m g2
      simp only [locVal]
      apply getD_of_get?
      rw [show asArray (pdf.get_object m) = kidsList pdf (pdf.resolve f) by
        rw [kidsList, ← hkv]
        rfl]
      exact hk
    · rename_i hkvnr
      split
      · -- the field entry is an indirect reference
        rename_i n g3
        simp only [locVal]
        apply getD_of_get?
        exact hk
      · -- the field entry is a direct value at index i of the fields array
        rename_i hfnr
        have hfself : pdf.resolve f = f := resolve_eq_self_of_not_ref pdf f hfnr
        simp only [locVal]
        apply getD_of_get?
        rw [getD_of_get? _ _ _ _ hfi, ← hfself]
        exact hk

theorem locVal_selfLoc (pdf : Pdf) (i : Nat) (f : PdfVal)
    (hfi : (getFields pdf).get? i = some f) :
    locVal pdf (selfLoc i f) = pdf.resolve f := by
  unfold selfLoc
  split
  · rfl
  · rename_i hfnr
    have hfself : pdf.resolve f = f := resolve_eq_self_of_not_ref pdf f hfnr
    simp only [locVal]
    rw [getD_of_get? _ _ _ _ hfi, hfself]

theorem kidLoop_eq_locKidLoop (pdf : Pdf) (t : String) (i : Nat) (f : PdfVal)
    (hfi : (getFields pdf).get? i = some f) :
    ∀ (rest : List PdfVal) (j : Nat),
      (∀ j2, rest.get? j2 = (kidsList pdf (pdf.resolve f)).get? (j + j2)) →
      kidLoop pdf t rest
        = (kidLocLoop pdf t i f ((valGet (pdf.resolve f) "/Kids").getD PdfVal.null)
            j rest).map (locVal pdf) := by
  intro rest
  induction rest with
  | nil => intro j _; rfl
  | cons k rest2 ih =>
    intro j hinv
    have hk : (kidsList pdf (pdf.resolve f)).get? j = some k := by
      have h0 := hinv 0
      rw [Nat.add_zero] at h0
      exact h0.symm
    simp only [kidLoop, kidLocLoop]
    by_cases hm : tMatches (valGet (pdf.resolve k) "/T") t = true
    · simp only [hm, if_true, Option.map]
      rw [locVal_kidLoc pdf i j f _ k hfi rfl hk]
    · simp only [hm, Bool.false_eq_true, if_false]
      apply ih (j + 1)
      intro j2
      rw [show j + 1 + j2 = j + (j2 + 1) by omega]
      exact hinv (j2 + 1)

theorem fieldLoop_eq_locLoop (pdf : Pdf) (t : String) :
    ∀ (rest : List PdfVal) (i : Nat),
      (∀ j2, rest.get? j2 = (getFields pdf).get? (i + j2)) →
      fieldLoop pdf t rest = (fieldLocLoop pdf t i rest).map (locVal pdf) := by
  intro rest
  induction rest with
  | nil => intro i _; rfl
  | cons f rest2 ih =>
    intro i hinv
    have hfi : (getFields pdf).get? i = some f := by
      have h0 := hinv 0
      rw [Nat.add_zero] at h0
      exact h0.symm
    have hrec : fieldLoop pdf t rest2
        = (fieldLocLoop pdf t (i + 1) rest2).map (locVal pdf) := by
      apply ih (i + 1)
      intro j2
      rw [show i + 1 + j2 = i + (j2 + 1) by omega]
      exact hinv (j2 + 1)
    simp only [fieldLoop, fieldLocLoop]
    by_cases hkids : valContains (pdf.resolve f) "/Kids" = true
    · simp only [hkids, if_true]
      rw [kidLoop_eq_locKidLoop pdf t i f hfi (kidsList pdf (pdf.resolve f)) 0
        (fun j2 => by rw [Nat.zero_add])]
      rcases hloc : kidLocLoop pdf t i f
          ((valGet (pdf.resolve f) "/Kids").getD PdfVal.null) 0
          (kidsList pdf (pdf.resolve f)) with _ | l
      · simp only [hloc, Option.map]
        by_cases hm : tMatches (valGet (pdf.resolve f) "/T") t = true
        · simp only [hm, if_true]
          rw [locVal_selfLoc pdf i f hfi]
        · simp only [hm, Bool.false_eq_true, if_false]
          exact hrec
      · rfl
    · simp only [hkids, Bool.false_eq_true, if_false]
      by_cases hm : tMatches (valGet (pdf.resolve f) "/T") t = true
      · simp only [hm, if_true, Option.map]
        rw [locVal_selfLoc pdf i f hfi]
      · simp only [hm, Bool.false_eq_true, if_false]
        exact hrec

/-- The mutation operations locate the widget through `locateW`; this
certifies that `locateW` is the same traversal as `load_widget`: the
value stored at the returned location is exactly the object `load_widget`
returns (so mutating through the location is mutating the object the
Python closures alias). -/
theorem load_widget_eq_locateW (pdf : Pdf) (t : String) :
    load_widget pdf t = (locateW pdf t).map (locVal pdf) := by
  unfold load_widget locateW
  by_cases hA : dictContains pdf.root "/AcroForm" = false
  · simp [hA]
  · by_cases hF : valContains (formObj pdf) "/Fields" = false
    · simp [hA, hF]
    · simp only [hA, hF, if_false]
      exact fieldLoop_eq_locLoop pdf t (getFields pdf) 0 (fun j2 => by simp)

/-- C6: for every document and target name, the Field Locator's traversal
is exactly the specified one — iterate the top-level field list in order,
resolving references; prefer the first matching resolved child of an
entry's child list; otherwise the entry itself when its own name matches;
not-found when there is no form dictionary, no field list, or no match. -/
theorem load_widget_follows_spec (pdf : Pdf) (target : String) :
    load_widget pdf target = load_widget_spec pdf target := by
  simp only [load_widget, load_widget_spec, fieldLoop_eq_findSome]

/-!
## The Field Reporter recomputes exactly the specified table
-/

theorem enumFrom_find_eq_scanPages (n : Nat) (l : List Nat) :
    ∀ i, (List.enumFrom i l).find? (fun ip => ip.2 == n)
      = (scanPages n i l).map (fun j => (j, n)) := by
  induction l with
  | nil => intro i; rfl
  | cons x rest ih =>
    intro i
    have hcons : List.enumFrom i (x :: rest)
        = (i, x) :: List.enumFrom (i + 1) rest := rfl
    rw [hcons]
    by_cases h : x = n
    · subst h
      rw [List.find?_cons_of_pos _ (by simp)]
      simp [scanPages]
    · rw [List.find?_cons_of_neg _ (by simp [h])]
      have hsc : scanPages n i (x :: rest) = scanPages n (i + 1) rest := by
        simp [scanPages, h]
      rw [hsc, ih (i + 1)]

theorem linkedPageColumn_eq_pageCellOfP (pdf : Pdf) (p : Option PdfVal) :
    linkedPageColumn pdf p = pageCellOfP pdf p := by
  rcases p with _ | v
  · rfl
  · simp only [linkedPageColumn, pageCellOfP]
    rcases hog : objgenOf v with _ | ng
    · rfl
    · obtain ⟨n, g⟩ := ng
      show (match List.find? (fun ip => ip.2 == n) (List.enumFrom 0 pdf.pages) with
          | some ip => PageCell.num (ip.1 + 1)
          | none => PageCell.invalid)
        = (match scanPages n 0 pdf.pages with
          | some i => PageCell.num (i + 1)
          | none => PageCell.invalid)
      rw [enumFrom_find_eq_scanPages n pdf.pages 0]
      rcases hs : scanPages n 0 pdf.pages with _ | j <;> simp

theorem rowSpec_eq_rowOfAnnot (pdf : Pdf) (i : Nat) (a : PdfVal) :
    rowSpec pdf i a = rowOfAnnot pdf i a := by
  simp only [rowSpec, rowOfAnnot, linkedPageColumn_eq_pageCellOfP]

theorem rowSpec_fun_eq (pdf : Pdf) (i : Nat) :
    rowSpec pdf i = rowOfAnnot pdf i :=
  funext (rowSpec_eq_rowOfAnnot pdf i)

theorem annotRows_eq_filterMap (pdf : Pdf) (i : Nat) (l : List PdfVal) :
    annotRows pdf i l = l.filterMap (rowOfAnnot pdf i) := by
  induction l with
  | nil => rfl
  | cons a rest ih =>
    simp only [annotRows, List.filterMap_cons]
    rcases h : rowOfAnnot pdf i a with _ | r
    · simp [ih]
    · simp [ih]

theorem pageLoop_eq_flatMap (pdf : Pdf) (l : List Nat) :
    ∀ i, pageLoop pdf i l = (List.enumFrom i l).flatMap
      (fun ip => (pageAnnots pdf ip.2).filterMap (rowSpec pdf ip.1)) := by
  induction l with
  | nil => intro i; rfl
  | cons pn rest ih =>
    intro i
    have hcons : List.enumFrom i (pn :: rest)
        = (i, pn) :: List.enumFrom (i + 1) rest := rfl
    rw [hcons]
    simp only [pageLoop, List.flatMap_cons, ih, annotRows_eq_filterMap,
      rowSpec_fun_eq]

/-- Shared refinement lemma: the reporter's table equals the one
described by the specification's wording (one row per widget-subtype
annotation, pages in document order, each page's annotation list in
order, with the specified columns). -/
theorem refresh_fields_eq_spec (pdf : Pdf) :
    refresh_fields pdf = refresh_fields_spec pdf := by
  unfold refresh_fields refresh_fields_spec
  have henum : pdf.pages.enum = List.enumFrom 0 pdf.pages := rfl
  rw [henum]
  exact pageLoop_eq_flatMap pdf pdf.pages 0

/-- C9: the Field Reporter produces exactly the table the specification
describes — one row per widget-subtype annotation, iterating pages in
document order and annotation lists in order, with the name, 1-based
physical page, linked-page resolution (by object identity against the
real pages, "(invalid)" when nothing matches, blank when absent), link
descriptor (object/generation pair, "(inline)" for non-references, blank
when absent) and rectangle columns — and after "Set rectangle" with
(10, 20, 300, 400) the located widget's reported rectangle string equals
"[10.0, 20.0, 300.0, 400.0]". -/
theorem refresh_fields_report (pdf0 : Pdf) :
    refresh_fields pdf0 = refresh_fields_spec pdf0 ∧
    (∀ pdf name loc, locateW pdf name = some loc → locValid pdf loc = true →
      ∃ pdf', change_set_rect name 10 20 300 400 pdf = Except.ok (pdf', true) ∧
        dictGet (getW pdf' loc) "/Rect" = some (PdfVal.array
          [PdfVal.num 10, PdfVal.num 20, PdfVal.num 300, PdfVal.num 400]) ∧
        rectStr pdf' ((dictGet (getW pdf' loc) "/Rect").getD (PdfVal.array []))
          = "[10.0, 20.0, 300.0, 400.0]") := by
  refine ⟨refresh_fields_eq_spec pdf0, ?_⟩
  intro pdf name loc hloc hval
  refine ⟨widgetUpdate pdf loc (fun wd => dictSet wd "/Rect" (PdfVal.array
    [PdfVal.num 10, PdfVal.num 20, PdfVal.num 300, PdfVal.num 400])), ?_, ?_, ?_⟩
  · simp [change_set_rect, hloc]
  · unfold widgetUpdate
    rw [getW_setW _ _ _ hval, dictGet_dictSet_self]
  · unfold widgetUpdate
    rw [getW_setW _ _ _ hval, dictGet_dictSet_self]
    rfl

theorem refresh_fields_report_witness :
    ∃ pdf', change_set_rect "f" 10 20 300 400 samplePdf = Except.ok (pdf', true) ∧
      dictGet (getW pdf' (WLoc.obj 5)) "/Rect" = some (PdfVal.array
        [PdfVal.num 10, PdfVal.num 20, PdfVal.num 300, PdfVal.num 400]) ∧
      rectStr pdf' ((dictGet (getW pdf' (WLoc.obj 5)) "/Rect").getD (PdfVal.array []))
        = "[10.0, 20.0, 300.0, 400.0]" :=
  (refresh_fields_report samplePdf).2 samplePdf "f" (WLoc.obj 5) rfl rfl

end EditPdf
